import Mathlib

/-!
Verification of the pre-commit debug-marker hook (precommit_hooks/check_for_xxx.py).

The development shallowly embeds the Python source: the string helpers used by
the script (str.splitlines, str.split, str.strip, str.lower, int()), the
relevant fragment of difflib (SequenceMatcher with isjunk=None and autojunk,
get_matching_blocks, get_opcodes, get_grouped_opcodes, unified_diff with
lineterm set to the empty string), and the functions parse_line_number,
collect_errors and the exit-code tail of main.  Fallible Python code (the
ValueError raised by parse_line_number and propagated by collect_errors) is
modelled with Except.
-/

/-! ## Python string primitives -/

/-- The characters Python treats as whitespace for str.strip and str.isspace. -/
def isPySpace (c : Char) : Bool :=
  c = ' ' ∨ c = '\t' ∨ c = '\n' ∨ c = '\r' ∨ c = '\x0b' ∨ c = '\x0c' ∨
  c = '\x1c' ∨ c = '\x1d' ∨ c = '\x1e' ∨ c = '\x1f' ∨ c = '\x85' ∨ c = '\xa0' ∨
  c = ' ' ∨ c = ' ' ∨ c = ' ' ∨ c = ' ' ∨ c = ' ' ∨
  c = ' ' ∨ c = ' ' ∨ c = ' ' ∨ c = ' ' ∨ c = ' ' ∨
  c = ' ' ∨ c = ' ' ∨ c = ' ' ∨ c = ' ' ∨ c = ' ' ∨
  c = ' ' ∨ c = '　'

/-- The characters Python treats as line boundaries for str.splitlines
(the pair carriage-return line-feed is handled separately). -/
def isPyLineBreak (c : Char) : Bool :=
  c = '\n' ∨ c = '\r' ∨ c = '\x0b' ∨ c = '\x0c' ∨ c = '\x1c' ∨ c = '\x1d' ∨
  c = '\x1e' ∨ c = '\x85' ∨ c = ' ' ∨ c = ' '

/-- Core of str.splitlines(keepends=False): cur holds the current line reversed. -/
def pySplitlinesCore : List Char → List Char → List String
  | [], cur => if cur.isEmpty then [] else [String.mk cur.reverse]
  | '\r' :: '\n' :: rest, cur => String.mk cur.reverse :: pySplitlinesCore rest []
  | c :: rest, cur =>
    if isPyLineBreak c then String.mk cur.reverse :: pySplitlinesCore rest []
    else pySplitlinesCore rest (c :: cur)

/-- Python str.splitlines() without keepends, as used on the two file contents. -/
def pySplitlines (s : String) : List String :=
  pySplitlinesCore s.data []

/-- Python s.startswith(pre). -/
def pyStartsWith (s pre : String) : Bool :=
  pre.data.isPrefixOf s.data

/-- Python str.strip() on a character list: drop whitespace from both ends. -/
def pyStripChars (cs : List Char) : List Char :=
  ((cs.dropWhile isPySpace).reverse.dropWhile isPySpace).reverse

/-- Python str.strip(). -/
def pyStrip (s : String) : String :=
  String.mk (pyStripChars s.data)

/-- Python str.split(sep) with a one-character separator: consecutive
separators produce empty fields, and the result is never empty. -/
def pySplitCh (c : Char) : List Char → List (List Char)
  | [] => [[]]
  | x :: xs =>
    if x = c then [] :: pySplitCh c xs
    else
      match pySplitCh c xs with
      | t :: ts => (x :: t) :: ts
      | [] => [[x]]

/-- Python line.lower() restricted to its effect on ASCII letters, which is all
the case-insensitive search for the marker can observe. -/
def pyLower (s : String) : String :=
  String.mk (s.data.map Char.toLower)

/-- Contiguous containment of one character list in another. -/
def listIsInfixOf (needle hay : List Char) : Bool :=
  hay.tails.any (fun t => needle.isPrefixOf t)

/-- Python substring containment: sub in s. -/
def pyContains (s sub : String) : Bool :=
  listIsInfixOf sub.data s.data

/-! ## Python int() -/

/-- Decimal digit accumulation for int(): underscores are allowed only between
two digits. The first character was already consumed by pyDigits. -/
def pyDigitsCore : List Char → Nat → Option Nat
  | [], acc => some acc
  | c :: cs, acc =>
    if c.isDigit then pyDigitsCore cs (acc * 10 + (c.toNat - 48))
    else if c = '_' then
      match cs with
      | d :: ds => if d.isDigit then pyDigitsCore ds (acc * 10 + (d.toNat - 48)) else none
      | [] => none
    else none

/-- A nonempty run of decimal digits (with legal underscores) and its value. -/
def pyDigits : List Char → Option Nat
  | [] => none
  | c :: cs => if c.isDigit then pyDigitsCore cs (c.toNat - 48) else none

/-- Python int(str): optional surrounding whitespace, optional single sign,
then decimal digits. Returns none where Python raises ValueError. -/
def pyInt (cs : List Char) : Option Int :=
  match pyStripChars cs with
  | '+' :: rest => (pyDigits rest).map Int.ofNat
  | '-' :: rest => (pyDigits rest).map (fun n => -(n : Int))
  | rest => (pyDigits rest).map Int.ofNat

/-! ## Decimal rendering, as performed by Python str formatting of line numbers -/

/-- The character of a single decimal digit. -/
def digitChar (n : Nat) : Char :=
  Char.ofNat (48 + n)

/-- Decimal digits, most significant first; the fuel only serves structural
termination and n + 1 is always enough because division by ten shrinks n. -/
def natToDigitsAux : Nat → Nat → List Char
  | 0, _ => []
  | fuel + 1, n =>
    if n < 10 then [digitChar n]
    else natToDigitsAux fuel (n / 10) ++ [digitChar (n % 10)]

/-- Decimal digits of a natural number, most significant first. -/
def natToDigits (n : Nat) : List Char :=
  natToDigitsAux (n + 1) n

/-- Python str() of a nonnegative integer. -/
def natToString (n : Nat) : String :=
  String.mk (natToDigits n)

/-- Python str() of an integer. -/
def intToString (i : Int) : String :=
  if i < 0 then "-" ++ natToString i.natAbs else natToString i.toNat

/-! ## parse_line_number -/

/-- parse_line_number from check_for_xxx.py: check the at-at prefix, split the
line on single spaces into exactly four parts, and apply int() to the part of
the third token that precedes the first comma. ValueError becomes Except.error. -/
def parse_line_number (line : String) : Except String Int :=
  if ¬ pyStartsWith line "@@" then Except.error "Not a unified-diff header"
  else
    let parts := pySplitCh ' ' line.data
    if parts.length ≠ 4 then Except.error "Not a unified-diff header"
    else
      match pyInt (List.headD (pySplitCh ',' (parts.getD 2 [])) []) with
      | some k => Except.ok k
      | none => Except.error "invalid literal for int() with base 10"

/-! ## difflib.SequenceMatcher(None, a, b)

The matcher is embedded exactly as the Python library computes it for the
arguments used by collect_errors: isjunk is None (no junk elements) and
autojunk is on, so an element of b occurring more than len(b)/100 + 1 times is
dropped from the index b2j when len(b) is at least 200. -/

/-- All indices of e in b, in increasing order (the b2j chain before purging). -/
def listPositions (b : List String) (e : String) : List Nat :=
  (List.range b.length).filter (fun j => b.getD j "" == e)

/-- b2j with the autojunk purge of popular elements. -/
def pyB2j (b : List String) (e : String) : List Nat :=
  let idxs := listPositions b e
  if 200 ≤ b.length ∧ b.length / 100 + 1 < idxs.length then [] else idxs

/-- Inner loop of find_longest_match over the occurrence list of a[i] in b:
j2len is the previous row read through get with default 0, acc is the row
being built, and the best triple is updated whenever a longer run appears.
An index at least bhi stops the loop (the list is ascending). -/
def flmInner (blo bhi i : Nat) :
    List Nat → (Nat → Nat) → (Nat → Nat) → Nat × Nat × Nat → (Nat → Nat) × (Nat × Nat × Nat)
  | [], _, acc, best => (acc, best)
  | j :: js, old, acc, best =>
    if j < blo then flmInner blo bhi i js old acc best
    else if bhi ≤ j then (acc, best)
    else
      let k := (if j = 0 then 0 else old (j - 1)) + 1
      let acc2 := fun x => if x = j then k else acc x
      let best2 := if best.2.2 < k then (i + 1 - k, j + 1 - k, k) else best
      flmInner blo bhi i js old acc2 best2

/-- The row loop of find_longest_match: fold the inner loop over i in
the range from alo to ahi, threading the j2len row and the best triple. -/
def flmScan (a : List String) (b2j : String → List Nat) (alo ahi blo bhi : Nat) :
    (Nat → Nat) × (Nat × Nat × Nat) :=
  (List.range' alo (ahi - alo)).foldl
    (fun st i => flmInner blo bhi i (b2j (a.getD i "")) st.1 (fun _ => 0) st.2)
    ((fun _ => 0), (alo, blo, 0))

/-- First extension loop: extend the best match backwards over non-junk
equal elements.  The loop decrements bi on every step, so the fuel bi given
to it by findLongestMatch is always enough. -/
def extBackA (a b : List String) (alo blo : Nat) (jk : String → Bool) :
    Nat → Nat → Nat → Nat → Nat × Nat × Nat
  | 0, bi, bj, bs => (bi, bj, bs)
  | fuel + 1, bi, bj, bs =>
    if alo < bi ∧ blo < bj ∧ jk (b.getD (bj - 1) "") = false ∧
        a.getD (bi - 1) "" = b.getD (bj - 1) "" then
      extBackA a b alo blo jk fuel (bi - 1) (bj - 1) (bs + 1)
    else (bi, bj, bs)

/-- Second extension loop: extend the best match forwards over non-junk
equal elements; only the size changes.  The loop increments bj + bs, which
stays below bhi, so the fuel bhi is always enough. -/
def extFwdA (a b : List String) (ahi bhi : Nat) (jk : String → Bool) :
    Nat → Nat → Nat → Nat → Nat
  | 0, _, _, bs => bs
  | fuel + 1, bi, bj, bs =>
    if bi + bs < ahi ∧ bj + bs < bhi ∧ jk (b.getD (bj + bs) "") = false ∧
        a.getD (bi + bs) "" = b.getD (bj + bs) "" then
      extFwdA a b ahi bhi jk fuel bi bj (bs + 1)
    else bs

/-- Third extension loop: extend backwards over junk elements. -/
def extBackJ (a b : List String) (alo blo : Nat) (jk : String → Bool) :
    Nat → Nat → Nat → Nat → Nat × Nat × Nat
  | 0, bi, bj, bs => (bi, bj, bs)
  | fuel + 1, bi, bj, bs =>
    if alo < bi ∧ blo < bj ∧ jk (b.getD (bj - 1) "") = true ∧
        a.getD (bi - 1) "" = b.getD (bj - 1) "" then
      extBackJ a b alo blo jk fuel (bi - 1) (bj - 1) (bs + 1)
    else (bi, bj, bs)

/-- Fourth extension loop: extend forwards over junk elements. -/
def extFwdJ (a b : List String) (ahi bhi : Nat) (jk : String → Bool) :
    Nat → Nat → Nat → Nat → Nat
  | 0, _, _, bs => bs
  | fuel + 1, bi, bj, bs =>
    if bi + bs < ahi ∧ bj + bs < bhi ∧ jk (b.getD (bj + bs) "") = true ∧
        a.getD (bi + bs) "" = b.getD (bj + bs) "" then
      extFwdJ a b ahi bhi jk fuel bi bj (bs + 1)
    else bs

/-- find_longest_match(alo, ahi, blo, bhi): the dynamic-programming scan
followed by the four extension loops. jk is the junk predicate, which is
constantly false because the script constructs SequenceMatcher(None, ., .). -/
def findLongestMatch (a b : List String) (b2j : String → List Nat) (jk : String → Bool)
    (alo ahi blo bhi : Nat) : Nat × Nat × Nat :=
  let s0 := (flmScan a b2j alo ahi blo bhi).2
  let s1 := extBackA a b alo blo jk s0.1 s0.1 s0.2.1 s0.2.2
  let s2 := (s1.1, s1.2.1, extFwdA a b ahi bhi jk bhi s1.1 s1.2.1 s1.2.2)
  let s3 := extBackJ a b alo blo jk s2.1 s2.1 s2.2.1 s2.2.2
  (s3.1, s3.2.1, extFwdJ a b ahi bhi jk bhi s3.1 s3.2.1 s3.2.2)

/-- The recursive block collection of get_matching_blocks.  Python keeps a
work queue and sorts the collected triples afterwards; because the recursive
subranges lie strictly to the left and to the right of the found match, that
is the same as this in-order recursion.  The fuel argument only serves
termination; each call strictly shrinks the ranges, so the initial fuel
len(a) + len(b) + 1 is never exhausted. -/
def matchingBlocksAux (a b : List String) (b2j : String → List Nat) (jk : String → Bool) :
    Nat → Nat → Nat → Nat → Nat → List (Nat × Nat × Nat)
  | 0, _, _, _, _ => []
  | fuel + 1, alo, ahi, blo, bhi =>
    let m := findLongestMatch a b b2j jk alo ahi blo bhi
    if m.2.2 = 0 then []
    else
      (if alo < m.1 ∧ blo < m.2.1 then
        matchingBlocksAux a b b2j jk fuel alo m.1 blo m.2.1 else []) ++
      [m] ++
      (if m.1 + m.2.2 < ahi ∧ m.2.1 + m.2.2 < bhi then
        matchingBlocksAux a b b2j jk fuel (m.1 + m.2.2) ahi (m.2.1 + m.2.2) bhi else [])

/-- Collapse adjacent matching blocks, as at the end of get_matching_blocks. -/
def collapseBlocks : List (Nat × Nat × Nat) → Nat → Nat → Nat → List (Nat × Nat × Nat)
  | [], i1, j1, k1 => if k1 ≠ 0 then [(i1, j1, k1)] else []
  | (i2, j2, k2) :: rest, i1, j1, k1 =>
    if i1 + k1 = i2 ∧ j1 + k1 = j2 then collapseBlocks rest i1 j1 (k1 + k2)
    else (if k1 ≠ 0 then [(i1, j1, k1)] else []) ++ collapseBlocks rest i2 j2 k2

/-- get_matching_blocks: the sorted non-adjacent blocks plus the terminating
sentinel (len(a), len(b), 0). -/
def getMatchingBlocks (a b : List String) : List (Nat × Nat × Nat) :=
  let blocks := matchingBlocksAux a b (pyB2j b) (fun _ => false)
    (a.length + b.length + 1) 0 a.length 0 b.length
  collapseBlocks blocks 0 0 0 ++ [(a.length, b.length, 0)]

/-- One opcode of get_opcodes: a tag with the two half-open ranges. -/
structure Opcode where
  tag : String
  i1 : Nat
  i2 : Nat
  j1 : Nat
  j2 : Nat
deriving DecidableEq, Repr, Inhabited

/-- The loop of get_opcodes over the matching blocks. -/
def opcodesLoop : List (Nat × Nat × Nat) → Nat → Nat → List Opcode
  | [], _, _ => []
  | (ai, bj, size) :: rest, i, j =>
    let tag : String :=
      if i < ai ∧ j < bj then "replace"
      else if i < ai then "delete"
      else if j < bj then "insert"
      else ""
    (if tag ≠ "" then [⟨tag, i, ai, j, bj⟩] else []) ++
    (if size ≠ 0 then [⟨"equal", ai, ai + size, bj, bj + size⟩] else []) ++
    opcodesLoop rest (ai + size) (bj + size)

/-- get_opcodes. -/
def getOpcodes (a b : List String) : List Opcode :=
  opcodesLoop (getMatchingBlocks a b) 0 0

/-- get_grouped_opcodes: trim a leading equal opcode to at most n lines. -/
def fixHead (n : Nat) : List Opcode → List Opcode
  | [] => []
  | c :: rest =>
    if c.tag = "equal" then ⟨c.tag, max c.i1 (c.i2 - n), c.i2, max c.j1 (c.j2 - n), c.j2⟩ :: rest
    else c :: rest

/-- get_grouped_opcodes: trim a trailing equal opcode to at most n lines. -/
def fixLast (n : Nat) (codes : List Opcode) : List Opcode :=
  match codes.getLast? with
  | none => []
  | some c =>
    if c.tag = "equal" then
      codes.dropLast ++ [⟨c.tag, c.i1, min c.i2 (c.i1 + n), c.j1, min c.j2 (c.j1 + n)⟩]
    else codes

/-- The grouping loop of get_grouped_opcodes: an equal opcode wider than
2n lines ends the current group. -/
def groupLoop (nn n : Nat) : List Opcode → List (List Opcode) → List Opcode → List (List Opcode)
  | [], groups, group =>
    match group with
    | [] => groups
    | [c] => if c.tag = "equal" then groups else groups ++ [group]
    | _ => groups ++ [group]
  | c :: rest, groups, group =>
    if c.tag = "equal" ∧ nn < c.i2 - c.i1 then
      groupLoop nn n rest
        (groups ++ [group ++ [⟨c.tag, c.i1, min c.i2 (c.i1 + n), c.j1, min c.j2 (c.j1 + n)⟩]])
        [⟨c.tag, max c.i1 (c.i2 - n), c.i2, max c.j1 (c.j2 - n), c.j2⟩]
    else groupLoop nn n rest groups (group ++ [c])

/-- get_grouped_opcodes(n). -/
def getGroupedOpcodes (a b : List String) (n : Nat) : List (List Opcode) :=
  let codes0 := getOpcodes a b
  let codes1 := if codes0 = [] then [⟨"equal", 0, 1, 0, 1⟩] else codes0
  groupLoop (n + n) n (fixLast n (fixHead n codes1)) [] []

/-! ## difflib.unified_diff(a, b, lineterm=empty, n=0) -/

/-- The list slice a[i1:i2]. -/
def sliceList (xs : List String) (i j : Nat) : List String :=
  (xs.drop i).take (j - i)

/-- difflib _format_range_unified. -/
def formatRangeUnified (start stop : Nat) : String :=
  let beginning := start + 1
  let length := stop - start
  if length = 1 then natToString beginning
  else natToString (if length = 0 then beginning - 1 else beginning) ++ "," ++ natToString length

/-- The diff body lines of one opcode. -/
def opcodeLines (a b : List String) (c : Opcode) : List String :=
  if c.tag = "equal" then (sliceList a c.i1 c.i2).map (fun l => " " ++ l)
  else
    (if c.tag = "replace" ∨ c.tag = "delete" then
      (sliceList a c.i1 c.i2).map (fun l => "-" ++ l) else []) ++
    (if c.tag = "replace" ∨ c.tag = "insert" then
      (sliceList b c.j1 c.j2).map (fun l => "+" ++ l) else [])

/-- The hunk header of one group, built from its first and last opcodes. -/
def groupHeader (g : List Opcode) : String :=
  match g.head?, g.getLast? with
  | some f, some l =>
    "@@ -" ++ formatRangeUnified f.i1 l.i2 ++ " +" ++ formatRangeUnified f.j1 l.j2 ++ " @@"
  | _, _ => ""

/-- unified_diff(a, b, lineterm=empty, n=0): the two file-header artifact
lines appear once, before the first hunk, when the diff is nonempty. -/
def unifiedDiff (a b : List String) : List String :=
  match getGroupedOpcodes a b 0 with
  | [] => []
  | gs => ["--- ", "+++ "] ++
      (gs.map (fun g => groupHeader g :: (g.map (opcodeLines a b)).flatten)).flatten

/-! ## collect_errors and the exit-code tail of main -/

/-- The diagnostic message produced for a flagged line. -/
def debugMarkerMsg (filename : String) (n : Int) : String :=
  "Debug marker detected at " ++ filename ++ ":" ++ intToString n

/-- The case-insensitive marker test performed on a diff line. -/
def containsMarker (line : String) : Bool :=
  pyContains (pyLower line) "# xxx"

/-- One iteration of the loop of collect_errors: the state is the pair of the
running line number and the accumulated errors, or the propagated ValueError. -/
def collectStep (filename : String) (st : Except String (Int × List String)) (line : String) :
    Except String (Int × List String) :=
  match st with
  | Except.error e => Except.error e
  | Except.ok (ln, errs) =>
    match (if pyStartsWith line "@@" then parse_line_number line else Except.ok ln) with
    | Except.error e => Except.error e
    | Except.ok ln1 =>
      if ¬ pyStartsWith line "+" ∨ pyStrip line = "+++" then Except.ok (ln1, errs)
      else
        let errs1 := if containsMarker line then errs ++ [debugMarkerMsg filename ln1] else errs
        let ln2 := if pyStartsWith line "+" then ln1 + 1 else ln1
        Except.ok (ln2, errs1)

/-- collect_errors from check_for_xxx.py.  Note the argument order of the
diff: the source passes data_b.splitlines() as the from-sequence and
data_a.splitlines() as the to-sequence of unified_diff. -/
def collect_errors (filename data_a data_b : String) : Except String (List String) :=
  ((unifiedDiff (pySplitlines data_b) (pySplitlines data_a)).foldl
    (collectStep filename) (Except.ok (1, []))).map (fun st => st.2)

/-- The exit-code tail of main: 1 when at least one error was collected,
0 otherwise. -/
def mainReturn (errors : List String) : Nat :=
  if errors.isEmpty then 0 else 1

/-- Modelled from the spec (the Line Attributor and Marker Scanner contracts,
sections 4.2 and 4.3): the diagnostics expected from one hunk whose addition
lines start at line number start in the target version, numbering the
additions sequentially. -/
def specHunkDiagnostics (f : String) (start : Int) : List String → List String
  | [] => []
  | line :: rest =>
    (if containsMarker line then [debugMarkerMsg f start] else []) ++
    specHunkDiagnostics f (start + 1) rest

/-- Proof auxiliary (not part of the source): the value that the j2len
dynamic-programming row of find_longest_match holds in column j after
processing row i, when the matcher is run on two copies of a over the full
ranges.  It is the length of the chain of index-linked occurrences ending
at row i and column j. -/
def diagChain (a : List String) : Nat → Nat → Nat
  | 0, j => if j ∈ pyB2j a (a.getD 0 "") then 1 else 0
  | i + 1, j =>
    if j ∈ pyB2j a (a.getD (i + 1) "") then
      (if j = 0 then 0 else diagChain a i (j - 1)) + 1
    else 0

/-- Proof auxiliary: the j2len row as it stands before processing row i
(all zeroes before the first row). -/
def vrow (a : List String) : Nat → Nat → Nat
  | 0, _ => 0
  | i + 1, x => diagChain a i x

/-! # Claims -/

/-- C8: parse_line_number applied to the header at-at -14,0 +20,3 at-at
returns the new-start 20, and applied to at-at -0,0 +1 at-at returns 1. -/
theorem c8_parse_line_number_examples :
    parse_line_number "@@ -14,0 +20,3 @@" = Except.ok 20 ∧
    parse_line_number "@@ -0,0 +1 @@" = Except.ok 1 :=
  ⟨rfl, rfl⟩

/-- C1, evaluation at the failing input: with data_a bound to the old content
and data_b to the new content, as the parameters of collect_errors are
documented, the newly added debug-marker line produces no diagnostic at all,
because the source hands data_b to unified_diff as the from-sequence and
data_a as the to-sequence, so the added line surfaces as a deletion.  The run
would therefore signal success instead of the single expected diagnostic and
failure.  The second half of the claim (identical contents give zero
diagnostics and exit code 0) does hold. -/
theorem c1_added_marker_not_reported :
    collect_errors "path" "a\nb\n" "a\n# xxx debug\nb\n" = Except.ok [] ∧
    mainReturn [] = 0 ∧
    collect_errors "path" "a\nb\n" "a\nb\n" = Except.ok [] ∧
    mainReturn ["Debug marker detected at path:2"] = 1 :=
  ⟨rfl, rfl, rfl, rfl⟩

/-- C2, evaluation at the failing input: a marker line present in the old
content (data_a) and absent from the new content (data_b) is a deletion, yet
it is reported, because the inverted diff direction turns it into a plus
line.  This contradicts the claim that deletions never produce diagnostics. -/
theorem c2_removed_marker_reported :
    collect_errors "p" "# xxx debug" "" = Except.ok ["Debug marker detected at p:1"] :=
  rfl

/-- C3, evaluation at the failing input: with empty old content (data_a) the
lines of the new content are emitted by the inverted diff as deletions, so
nothing is attributed and the marker at true line 2 of the new content goes
unreported, against the claimed attribution (1,line1), (2,line2), (3,line3). -/
theorem c3_new_file_additions_not_attributed :
    collect_errors "p" "" "line1\n# xxx\nline3" = Except.ok [] :=
  rfl

/-- C4 counterexample: one hunk with three additions starting at line 1 of
the plus side, whose second addition has the content plus-plus-space; its
diff line strips to the header artifact and is skipped, so only two lines
are attributed for three additions and the marker line is attributed line 2
instead of its true position 3. -/
theorem c4_counterexample_plusplus_line :
    collect_errors "f" "a\n++ \n# xxx" "x" = Except.ok ["Debug marker detected at f:2"] ∧
    ("Debug marker detected at f:2" : String) ≠ "Debug marker detected at f:3" :=
  ⟨rfl, by decide⟩

/-- C5 counterexample: a header whose third token 20,3 lacks the leading
plus sign is accepted with value 20 instead of raising the malformed-header
error, and a header whose third token carries non-numeric text after the
comma is accepted as well, because the code applies int() only to the part
of the token before the first comma. -/
theorem c5_counterexample_header_without_plus :
    parse_line_number "@@ -14,0 20,3 @@" = Except.ok 20 ∧
    parse_line_number "@@ -1,0 +2,xyz @@" = Except.ok 2 :=
  ⟨rfl, rfl⟩

/-- C9 counterexample: the added line with content space-plus-plus strips to
plus-plus, but its diff line (a plus sign followed by that content) strips
to plus-space-plus-plus, not to the header artifact, so it is not skipped:
it advances the counter and the following marker line is attributed its true
position 3, where the claim predicts the attribution 2. -/
theorem c9_counterexample_leading_space_plusplus :
    collect_errors "f" "x\n ++\n# xxx" "x" = Except.ok ["Debug marker detected at f:3"] ∧
    pyStrip " ++" = "++" ∧
    pyStrip "+ ++" ≠ "+++" :=
  ⟨rfl, rfl, by decide⟩

/-! ## Helper lemmas about the loop step -/

theorem startsWith_plus_iff (line : String) :
    pyStartsWith line "+" = true ↔ ∃ t, line.data = '+' :: t := by
  unfold pyStartsWith
  rw [show ("+" : String).data = ['+'] from rfl, List.isPrefixOf_iff_prefix]
  constructor
  · rintro ⟨t, ht⟩
    exact ⟨t, ht.symm⟩
  · rintro ⟨t, ht⟩
    exact ⟨t, ht.symm⟩

theorem startsWith_atat_iff (line : String) :
    pyStartsWith line "@@" = true ↔ ∃ t, line.data = '@' :: '@' :: t := by
  unfold pyStartsWith
  rw [show ("@@" : String).data = ['@', '@'] from rfl, List.isPrefixOf_iff_prefix]
  constructor
  · rintro ⟨t, ht⟩
    exact ⟨t, ht.symm⟩
  · rintro ⟨t, ht⟩
    exact ⟨t, ht.symm⟩

theorem startsWith_plus_not_header {line : String} (h : pyStartsWith line "+" = true) :
    pyStartsWith line "@@" = false := by
  obtain ⟨t, ht⟩ := (startsWith_plus_iff line).mp h
  by_contra hc
  obtain ⟨u, hu⟩ := (startsWith_atat_iff line).mp (by revert hc; cases pyStartsWith line "@@" <;> simp)
  rw [ht] at hu
  exact absurd (List.head_eq_of_cons_eq hu) (by decide)

theorem header_not_plus {line : String} (h : pyStartsWith line "@@" = true) :
    pyStartsWith line "+" = false := by
  obtain ⟨t, ht⟩ := (startsWith_atat_iff line).mp h
  by_contra hc
  obtain ⟨u, hu⟩ := (startsWith_plus_iff line).mp (by revert hc; cases pyStartsWith line "+" <;> simp)
  rw [ht] at hu
  exact absurd (List.head_eq_of_cons_eq hu) (by decide)

theorem collectStep_plus (f : String) (n : Int) (errs : List String) (line : String)
    (hplus : pyStartsWith line "+" = true) (hstrip : pyStrip line ≠ "+++") :
    collectStep f (Except.ok (n, errs)) line =
      Except.ok (n + 1, errs ++ (if containsMarker line then [debugMarkerMsg f n] else [])) := by
  unfold collectStep
  rw [startsWith_plus_not_header hplus]
  simp only [Bool.false_eq_true, if_false]
  rw [if_neg (by simp [hplus, hstrip]), if_pos hplus]
  by_cases hm : containsMarker line = true
  · simp [hm]
  · simp [hm]

theorem collectStep_header (f : String) (n k : Int) (errs : List String) (line : String)
    (hat : pyStartsWith line "@@" = true) (hp : parse_line_number line = Except.ok k) :
    collectStep f (Except.ok (n, errs)) line = Except.ok (k, errs) := by
  unfold collectStep
  rw [hat]
  simp only [if_true]
  rw [hp]
  simp [header_not_plus hat]

/-- C6: on every line that reaches the marker scan (a plus line whose
stripped text is not the header artifact), one loop step appends a diagnostic
exactly when the lowercased line contains the marker substring, the message
is exactly the concatenation of the fixed prefix, the path, a colon and the
current line number, and the counter advances by one. -/
theorem c6_marker_scan_step (f : String) (n : Int) (errs : List String) (line : String)
    (hplus : pyStartsWith line "+" = true) (hstrip : pyStrip line ≠ "+++") :
    collectStep f (Except.ok (n, errs)) line =
      Except.ok (n + 1, errs ++
        (if pyContains (pyLower line) "# xxx" then
          ["Debug marker detected at " ++ f ++ ":" ++ intToString n] else [])) :=
  collectStep_plus f n errs line hplus hstrip

/-- C6 witness: the step flags the added line with uppercase XXX after the
comment prefix at line 2 with the exact message, and does not flag an added
line containing xxx without the comment prefix. -/
theorem c6_marker_scan_step_witness :
    collectStep "p" (Except.ok (2, [])) "+# XXX fix me" =
      Except.ok (3, ["Debug marker detected at p:2"]) ∧
    collectStep "p" (Except.ok (2, [])) "+say xxx here" = Except.ok (3, []) :=
  ⟨(c6_marker_scan_step "p" 2 [] "+# XXX fix me" rfl (by decide)).trans (by rfl),
   (c6_marker_scan_step "p" 2 [] "+say xxx here" rfl (by decide)).trans (by rfl)⟩

/-! ## Helper lemmas about stripping -/

theorem dropWhile_eq_cons_iff {p : Char → Bool} {l r : List Char} {c : Char}
    (hc : p c = false) :
    List.dropWhile p l = c :: r ↔ ∃ w, l = w ++ c :: r ∧ ∀ x ∈ w, p x = true := by
  induction l with
  | nil =>
    simp only [List.dropWhile_nil]
    constructor
    · intro h
      exact absurd h (by simp)
    · rintro ⟨w, hw, _⟩
      exact absurd hw (by simp)
  | cons x xs ih =>
    rw [List.dropWhile_cons]
    by_cases hx : p x = true
    · simp only [hx, if_true, ih]
      constructor
      · rintro ⟨w, hw, hall⟩
        refine ⟨x :: w, by simp [hw], ?_⟩
        intro y hy
        cases hy with
        | head => exact hx
        | tail _ hy2 => exact hall _ hy2
      · rintro ⟨w, hw, hall⟩
        cases w with
        | nil =>
          simp only [List.nil_append] at hw
          rw [List.cons.injEq] at hw
          exact absurd (hw.1 ▸ hx) (by rw [hc]; simp)
        | cons y w2 =>
          rw [List.cons_append, List.cons.injEq] at hw
          exact ⟨w2, hw.2, fun z hz => hall z (by simp [hz])⟩
    · simp only [Bool.not_eq_true] at hx
      simp only [hx, Bool.false_eq_true, if_false]
      constructor
      · intro h
        rw [List.cons.injEq] at h
        exact ⟨[], by simp [h.1, h.2], by simp⟩
      · rintro ⟨w, hw, hall⟩
        cases w with
        | nil => simpa using hw
        | cons y w2 =>
          rw [List.cons_append, List.cons.injEq] at hw
          have := hall y (by simp)
          rw [hw.1] at hx
          rw [hx] at this
          exact absurd this (by simp)

theorem pyStripChars_cons {c : Char} (hc : isPySpace c = false) (cs : List Char) :
    pyStripChars (c :: cs) = c :: (cs.reverse.dropWhile isPySpace).reverse := by
  unfold pyStripChars
  rw [List.dropWhile_cons, if_neg (by simp [hc]), List.reverse_cons]
  by_cases he : cs.reverse.dropWhile isPySpace = []
  · rw [List.dropWhile_append, he]
    simp [List.dropWhile_cons, hc]
  · rw [List.dropWhile_append]
    simp only [List.isEmpty_iff, he, if_false, ite_false]
    rw [List.reverse_append]
    simp

theorem pyStrip_data (s : String) : (pyStrip s).data = pyStripChars s.data := rfl

theorem strip_artifact_not_header {line : String} (h : pyStrip line = "+++") :
    pyStartsWith line "@@" = false := by
  by_contra hb
  have hb2 : pyStartsWith line "@@" = true := by revert hb; cases pyStartsWith line "@@" <;> simp
  obtain ⟨t, ht⟩ := (startsWith_atat_iff line).mp hb2
  have hd := congrArg String.data h
  rw [pyStrip_data, ht, pyStripChars_cons (by decide)] at hd
  rw [show ("+++" : String).data = ['+', '+', '+'] from rfl, List.cons.injEq] at hd
  exact absurd hd.1 (by decide)

theorem startsWith_plusplus_iff (s : String) :
    pyStartsWith s "++" = true ↔ ∃ t, s.data = '+' :: '+' :: t := by
  unfold pyStartsWith
  rw [show ("++" : String).data = ['+', '+'] from rfl, List.isPrefixOf_iff_prefix]
  constructor
  · rintro ⟨t, ht⟩
    exact ⟨t, ht.symm⟩
  · rintro ⟨t, ht⟩
    exact ⟨t, ht.symm⟩

theorem rstrip_eq_twoplus_iff (cs : List Char) :
    (cs.reverse.dropWhile isPySpace).reverse = ['+', '+'] ↔
      ∃ w, cs = '+' :: '+' :: w ∧ ∀ x ∈ w, isPySpace x = true := by
  rw [List.reverse_eq_iff, show (['+', '+'] : List Char).reverse = ['+', '+'] from rfl,
    dropWhile_eq_cons_iff (by decide)]
  constructor
  · rintro ⟨w, hw, hall⟩
    refine ⟨w.reverse, ?_, fun x hx => hall x (by simpa using hx)⟩
    have := congrArg List.reverse hw
    simpa using this
  · rintro ⟨w, hw, hall⟩
    refine ⟨w.reverse, ?_, fun x hx => hall x (by simpa using hx)⟩
    rw [hw]
    simp
  
theorem rstrip_eq_oneplus_iff (t : List Char) :
    ((('+' :: t : List Char)).reverse.dropWhile isPySpace).reverse = ['+'] ↔
      ∀ x ∈ t, isPySpace x = true := by
  rw [List.reverse_eq_iff, show (['+'] : List Char).reverse = ['+'] from rfl,
    dropWhile_eq_cons_iff (by decide), List.reverse_cons]
  constructor
  · rintro ⟨w, hw, hall⟩
    have hwt : t.reverse = w := List.append_left_injective ['+'] hw
    intro x hx
    exact hall x (by rw [← hwt]; simpa using hx)
  · intro hall
    exact ⟨t.reverse, rfl, fun x hx => hall x (by simpa using hx)⟩

/-- C9 amended: a diff line whose stripped text equals the header artifact is
skipped entirely by the loop of collect_errors (not scanned, counter and
errors unchanged); and an added line is in this class precisely when its own
content both strips to two plus signs and begins with them directly, that is,
the content is two plus signs followed only by trailing whitespace.  Content
with leading whitespace before the two plus signs is not covered, contrary
to the claim. -/
theorem c9_skip_rule_amended :
    (∀ (f : String) (st : Int × List String) (line : String), pyStrip line = "+++" →
      collectStep f (Except.ok st) line = Except.ok st) ∧
    (∀ content : String, pyStrip ("+" ++ content) = "+++" ↔
      (pyStrip content = "++" ∧ pyStartsWith content "++" = true)) := by
  constructor
  · intro f st line h
    obtain ⟨n, errs⟩ := st
    unfold collectStep
    rw [strip_artifact_not_header h]
    simp [h]
  · intro content
    have hd : ("+" ++ content).data = '+' :: content.data := by
      rw [String.data_append]
      rfl
    constructor
    · intro h
      have h2 := congrArg String.data h
      rw [pyStrip_data, hd, pyStripChars_cons (by decide),
        show ("+++" : String).data = ['+', '+', '+'] from rfl, List.cons.injEq] at h2
      obtain ⟨w, hw, hall⟩ := (rstrip_eq_twoplus_iff content.data).mp h2.2
      constructor
      · show String.mk (pyStripChars content.data) = "++"
        rw [hw, pyStripChars_cons (by decide)]
        rw [show (('+' :: w : List Char)) = '+' :: w from rfl]
        have : ((('+' :: w : List Char)).reverse.dropWhile isPySpace).reverse = ['+'] :=
          (rstrip_eq_oneplus_iff w).mpr hall
        rw [this]
      · exact (startsWith_plusplus_iff content).mpr ⟨w, hw⟩
    · rintro ⟨hstrip, hstart⟩
      obtain ⟨t, ht⟩ := (startsWith_plusplus_iff content).mp hstart
      have h2 := congrArg String.data hstrip
      rw [pyStrip_data, ht, pyStripChars_cons (by decide),
        show ("++" : String).data = ['+', '+'] from rfl, List.cons.injEq] at h2
      have hall : ∀ x ∈ t, isPySpace x = true := (rstrip_eq_oneplus_iff t).mp h2.2
      show String.mk (pyStripChars ("+" ++ content).data) = "+++"
      rw [hd, pyStripChars_cons (by decide)]
      have : ((content.data.reverse.dropWhile isPySpace)).reverse = ['+', '+'] :=
        (rstrip_eq_twoplus_iff content.data).mpr ⟨t, ht, hall⟩
      rw [this]

/-- C9 witness: the loop step leaves the state untouched on the file-header
artifact line, whose stripped text is the artifact. -/
theorem c9_skip_rule_witness :
    collectStep "f" (Except.ok (7, ["x"])) "+++ " = Except.ok (7, ["x"]) ∧
    pyStrip "+++ " = "+++" :=
  ⟨c9_skip_rule_amended.1 "f" (7, ["x"]) "+++ " rfl, rfl⟩

/-- C5 amended: parse_line_number fails exactly when the line does not begin
with the at-at prefix, or does not split on single spaces into exactly four
tokens, or the part of the third token before its first comma is not a valid
Python integer literal.  In particular a third token without the leading plus
sign, or with arbitrary text after the first comma, is accepted, contrary to
the claim. -/
theorem c5_parse_error_amended (line : String) :
    (∃ e, parse_line_number line = Except.error e) ↔
    ¬(pyStartsWith line "@@" = true ∧ (pySplitCh ' ' line.data).length = 4 ∧
      ∃ k, pyInt (List.headD (pySplitCh ',' ((pySplitCh ' ' line.data).getD 2 [])) []) =
        some k) := by
  by_cases h1 : pyStartsWith line "@@" = true
  · by_cases h2 : (pySplitCh ' ' line.data).length = 4
    · have hcore : parse_line_number line =
          (match pyInt (List.headD (pySplitCh ','
            ((pySplitCh ' ' line.data).getD 2 [])) []) with
          | some k => Except.ok k
          | none => Except.error "invalid literal for int() with base 10") := by
        rw [parse_line_number.eq_def]
        dsimp only
        rw [if_neg (by simp [h1]), if_neg (by simp [h2])]
      cases h3 : pyInt (List.headD (pySplitCh ','
          ((pySplitCh ' ' line.data).getD 2 [])) []) with
      | none =>
        rw [h3] at hcore
        constructor
        · intro _
          rintro ⟨-, -, k, hk⟩
          exact absurd hk (by simp)
        · intro _
          exact ⟨_, hcore⟩
      | some k =>
        rw [h3] at hcore
        constructor
        · rintro ⟨e, he⟩
          rw [hcore] at he
          exact absurd he (by simp)
        · intro hr
          exact absurd ⟨h1, h2, k, rfl⟩ hr
    · constructor
      · intro _
        intro hr
        exact absurd hr.2.1 h2
      · intro _
        refine ⟨"Not a unified-diff header", ?_⟩
        rw [parse_line_number.eq_def]
        dsimp only
        rw [if_neg (by simp [h1]), if_pos (by simp [h2])]
  · constructor
    · intro _
      intro hr
      exact absurd hr.1 h1
    · intro _
      refine ⟨"Not a unified-diff header", ?_⟩
      rw [parse_line_number.eq_def]
      rw [if_pos (by simp [h1])]

theorem collectFold_adds (f : String) (s : Int) (errs : List String) (adds : List String)
    (hadds : ∀ line ∈ adds, pyStartsWith line "+" = true ∧ pyStrip line ≠ "+++") :
    adds.foldl (collectStep f) (Except.ok (s, errs)) =
      Except.ok (s + (adds.length : Int), errs ++ specHunkDiagnostics f s adds) := by
  induction adds generalizing s errs with
  | nil => simp [specHunkDiagnostics]
  | cons line rest ih =>
    rw [List.foldl_cons,
      collectStep_plus f s errs line (hadds line (by simp)).1 (hadds line (by simp)).2,
      ih (s + 1) _ (fun l hl => hadds l (by simp [hl]))]
    simp only [Except.ok.injEq, Prod.mk.injEq, specHunkDiagnostics, List.append_assoc,
      List.length_cons]
    constructor
    · push_cast
      ring
    · trivial

theorem parse_ok_header {header : String} {s : Int}
    (hheader : parse_line_number header = Except.ok s) :
    pyStartsWith header "@@" = true := by
  by_contra hc
  rw [parse_line_number.eq_def, if_pos hc] at hheader
  exact absurd hheader (by simp)

theorem collectFold_hunk (f : String) (n : Int) (errs : List String) (header : String)
    (s : Int) (adds : List String)
    (hheader : parse_line_number header = Except.ok s)
    (hadds : ∀ line ∈ adds, pyStartsWith line "+" = true ∧ pyStrip line ≠ "+++") :
    (header :: adds).foldl (collectStep f) (Except.ok (n, errs)) =
      Except.ok (s + (adds.length : Int), errs ++ specHunkDiagnostics f s adds) := by
  rw [List.foldl_cons,
    collectStep_header f n s errs header (parse_ok_header hheader) hheader,
    collectFold_adds f s errs adds hadds]

/-- C4 amended: over any sequence of hunks, each made of a header line that
parses to a new-start value followed by addition lines none of which strips
to the header artifact, the loop of collect_errors resets the counter to each
header value, advances it by exactly one per addition, and produces per hunk
exactly the diagnostics of the additions containing the marker, each
numbered from the new-start of its own hunk (not accumulated across hunks).
Additions whose diff line strips to the header artifact are excluded: the
counterexample shows they are skipped and shift later attributions. -/
theorem c4_hunk_attribution_amended (f : String) (hunks : List (String × Int × List String))
    (n0 : Int) (errs0 : List String)
    (hwf : ∀ h ∈ hunks, parse_line_number h.1 = Except.ok h.2.1 ∧
      ∀ line ∈ h.2.2, pyStartsWith line "+" = true ∧ pyStrip line ≠ "+++") :
    ((hunks.map (fun h => h.1 :: h.2.2)).flatten).foldl (collectStep f)
        (Except.ok (n0, errs0)) =
      Except.ok (hunks.foldl (fun _ h => h.2.1 + (h.2.2.length : Int)) n0,
        errs0 ++ (hunks.map (fun h => specHunkDiagnostics f h.2.1 h.2.2)).flatten) := by
  induction hunks generalizing n0 errs0 with
  | nil => simp
  | cons hk rest ih =>
    obtain ⟨header, s, adds⟩ := hk
    simp only [List.map_cons, List.flatten_cons, List.foldl_append, List.foldl_cons]
    have hhd := hwf _ (List.mem_cons_self (header, s, adds) rest)
    have hstep := collectFold_hunk f n0 errs0 header s adds hhd.1 hhd.2
    rw [List.foldl_cons] at hstep
    rw [hstep, ih (s + (adds.length : Int)) (errs0 ++ specHunkDiagnostics f s adds)
      (fun h hh => hwf h (List.mem_cons_of_mem _ hh))]
    simp [List.append_assoc]

/-- C4 witness: two hunks with new-starts 5 and 50, one marker addition each:
the two diagnostics carry the absolute numbers 5 and 50 of their own hunks. -/
theorem c4_hunk_attribution_witness :
    (([("@@ -4,0 +5 @@", ((5 : Int), ["+# xxx one"])),
       ("@@ -48,0 +50 @@", ((50 : Int), ["+# xxx two"]))].map
        (fun h => h.1 :: h.2.2)).flatten).foldl (collectStep "f") (Except.ok (1, [])) =
      Except.ok (51, ["Debug marker detected at f:5", "Debug marker detected at f:50"]) := by
  refine (c4_hunk_attribution_amended "f" _ 1 [] ?_).trans (by rfl)
  intro h hh
  fin_cases hh
  · exact ⟨rfl, by intro l hl; fin_cases hl; exact ⟨rfl, by decide⟩⟩
  · exact ⟨rfl, by intro l hl; fin_cases hl; exact ⟨rfl, by decide⟩⟩

/-! ## Helper lemmas for the well-formedness of generated hunk headers -/

theorem digitChar_props {m : Nat} (h : m < 10) :
    (digitChar m).isDigit = true ∧ isPySpace (digitChar m) = false ∧
    (digitChar m).toNat = 48 + m ∧ digitChar m ≠ ' ' ∧ digitChar m ≠ ',' ∧
    digitChar m ≠ '+' := by
  interval_cases m <;> refine ⟨by decide, by decide, by decide, by decide, by decide, by decide⟩

theorem natToDigitsAux_mem {fuel : Nat} :
    ∀ {n : Nat}, n < fuel → ∀ c ∈ natToDigitsAux fuel n,
      c.isDigit = true ∧ isPySpace c = false ∧ c ≠ ' ' ∧ c ≠ ',' := by
  induction fuel with
  | zero => intro n h; omega
  | succ fuel ih =>
    intro n h c hc
    rw [natToDigitsAux] at hc
    by_cases h10 : n < 10
    · rw [if_pos h10] at hc
      simp only [List.mem_singleton] at hc
      obtain ⟨p1, p2, _, p4, p5, _⟩ := digitChar_props h10
      exact ⟨hc ▸ p1, hc ▸ p2, hc ▸ p4, hc ▸ p5⟩
    · rw [if_neg h10] at hc
      rcases List.mem_append.mp hc with hc1 | hc2
      · exact ih (by omega) c hc1
      · simp only [List.mem_singleton] at hc2
        obtain ⟨p1, p2, _, p4, p5, _⟩ := digitChar_props (Nat.mod_lt n (by omega))
        exact ⟨hc2 ▸ p1, hc2 ▸ p2, hc2 ▸ p4, hc2 ▸ p5⟩

theorem natToDigits_mem {n : Nat} :
    ∀ c ∈ natToDigits n, c.isDigit = true ∧ isPySpace c = false ∧ c ≠ ' ' ∧ c ≠ ',' :=
  natToDigitsAux_mem (Nat.lt_succ_self n)

theorem natToDigitsAux_ne_nil {fuel n : Nat} (h : n < fuel) :
    natToDigitsAux fuel n ≠ [] := by
  cases fuel with
  | zero => omega
  | succ fuel =>
    rw [natToDigitsAux]
    by_cases h10 : n < 10
    · rw [if_pos h10]; simp
    · rw [if_neg h10]; simp

theorem natToDigitsAux_foldl {fuel : Nat} :
    ∀ {n : Nat}, n < fuel → ∀ acc : Nat,
      (natToDigitsAux fuel n).foldl (fun a c => a * 10 + (c.toNat - 48)) acc =
        acc * 10 ^ (natToDigitsAux fuel n).length + n := by
  induction fuel with
  | zero => intro n h; omega
  | succ fuel ih =>
    intro n h acc
    rw [natToDigitsAux]
    by_cases h10 : n < 10
    · rw [if_pos h10]
      simp only [List.foldl_cons, List.foldl_nil, List.length_singleton]
      rw [(digitChar_props h10).2.2.1, pow_one]
      omega
    · rw [if_neg h10]
      rw [List.foldl_append, List.length_append]
      rw [ih (by omega) acc]
      simp only [List.foldl_cons, List.foldl_nil, List.length_singleton]
      rw [(digitChar_props (Nat.mod_lt n (by omega))).2.2.1, pow_succ]
      have hdm : n / 10 * 10 + n % 10 = n := by omega
      have h48 : 48 + n % 10 - 48 = n % 10 := by omega
      rw [h48]
      calc (acc * 10 ^ (natToDigitsAux fuel (n / 10)).length + n / 10) * 10 + n % 10
          = acc * (10 ^ (natToDigitsAux fuel (n / 10)).length * 10) +
            (n / 10 * 10 + n % 10) := by ring
        _ = acc * (10 ^ (natToDigitsAux fuel (n / 10)).length * 10) + n := by rw [hdm]

theorem pyDigitsCore_digits {cs : List Char} :
    ∀ acc : Nat, (∀ c ∈ cs, c.isDigit = true) →
      pyDigitsCore cs acc = some (cs.foldl (fun a c => a * 10 + (c.toNat - 48)) acc) := by
  induction cs with
  | nil => intro acc _; rfl
  | cons c cs ih =>
    intro acc hall
    rw [pyDigitsCore.eq_def]
    dsimp only
    rw [if_pos (hall c (by simp))]
    rw [ih _ (fun x hx => hall x (by simp [hx]))]
    rfl

theorem pyDigits_natToDigits (x : Nat) : pyDigits (natToDigits x) = some x := by
  have hne := natToDigitsAux_ne_nil (Nat.lt_succ_self x)
  have hmem := natToDigits_mem (n := x)
  have hfold := natToDigitsAux_foldl (Nat.lt_succ_self x) 0
  unfold natToDigits at hmem hne ⊢
  cases hd : natToDigitsAux (x + 1) x with
  | nil => exact absurd hd hne
  | cons c cs =>
    rw [hd] at hmem hfold
    rw [pyDigits, if_pos (hmem c (by simp)).1]
    rw [pyDigitsCore_digits _ (fun d hdm => (hmem d (by simp [hdm])).1)]
    simp only [List.foldl_cons] at hfold
    rw [show (0 : Nat) * 10 + (c.toNat - 48) = c.toNat - 48 from by omega] at hfold
    rw [hfold]
    simp

theorem pyStripChars_of_no_space {cs : List Char} (h : ∀ c ∈ cs, isPySpace c = false) :
    pyStripChars cs = cs := by
  have hdw : ∀ l : List Char, (∀ c ∈ l, isPySpace c = false) → l.dropWhile isPySpace = l := by
    intro l hl
    cases l with
    | nil => rfl
    | cons x xs => rw [List.dropWhile_cons, hl x (by simp)]; simp
  unfold pyStripChars
  rw [hdw _ h, hdw _ (fun c hc => h c (by simpa using hc))]
  simp

theorem pyInt_plus_digits (x : Nat) : pyInt ('+' :: natToDigits x) = some (x : Int) := by
  have hred : pyInt ('+' :: natToDigits x) =
      Option.map Int.ofNat (pyDigits (natToDigits x)) := by
    unfold pyInt
    rw [pyStripChars_of_no_space (by
      intro c hc
      rcases List.mem_cons.mp hc with h1 | h2
      · rw [h1]; decide
      · exact (natToDigits_mem c h2).2.1)]
    rfl
  rw [hred, pyDigits_natToDigits]
  rfl

theorem pySplitCh_ne_nil (c : Char) (cs : List Char) : pySplitCh c cs ≠ [] := by
  cases cs with
  | nil => simp [pySplitCh]
  | cons x xs =>
    rw [pySplitCh]
    by_cases hx : x = c
    · rw [if_pos hx]; simp
    · rw [if_neg hx]
      cases pySplitCh c xs <;> simp

theorem pySplitCh_of_not_mem {c : Char} {cs : List Char} (h : c ∉ cs) :
    pySplitCh c cs = [cs] := by
  induction cs with
  | nil => rfl
  | cons x xs ih =>
    rw [pySplitCh, if_neg (fun hx => h (by simp [hx]))]
    rw [ih (fun hx => h (by simp [hx]))]

theorem pySplitCh_append {c : Char} {xs ys : List Char} (h : c ∉ xs) :
    pySplitCh c (xs ++ c :: ys) = xs :: pySplitCh c ys := by
  induction xs with
  | nil =>
    simp only [List.nil_append]
    rw [pySplitCh, if_pos rfl]
  | cons x xs ih =>
    rw [List.cons_append, pySplitCh, if_neg (fun hx => h (by simp [hx]))]
    rw [ih (fun hx => h (by simp [hx]))]

theorem formatRange_data (start stop : Nat) :
    (∃ v, (formatRangeUnified start stop).data = natToDigits v) ∨
    (∃ v w, (formatRangeUnified start stop).data = natToDigits v ++ ',' :: natToDigits w) := by
  unfold formatRangeUnified
  by_cases h1 : stop - start = 1
  · rw [if_pos h1]
    exact Or.inl ⟨start + 1, rfl⟩
  · rw [if_neg h1]
    refine Or.inr ⟨(if stop - start = 0 then start + 1 - 1 else start + 1),
      stop - start, ?_⟩
    rw [String.data_append, String.data_append, List.append_assoc]
    rfl

theorem no_space_of_range_data {start stop : Nat} :
    ∀ c ∈ (formatRangeUnified start stop).data, c ≠ ' ' := by
  intro c hc
  rcases formatRange_data start stop with ⟨v, hv⟩ | ⟨v, w, hvw⟩
  · rw [hv] at hc
    exact (natToDigits_mem c hc).2.2.1
  · rw [hvw] at hc
    rcases List.mem_append.mp hc with h1 | h2
    · exact (natToDigits_mem c h1).2.2.1
    · rcases List.mem_cons.mp h2 with h3 | h4
      · rw [h3]; decide
      · exact (natToDigits_mem c h4).2.2.1

theorem pyInt_range_head (start stop : Nat) :
    ∃ k, pyInt (List.headD
      (pySplitCh ',' ('+' :: (formatRangeUnified start stop).data)) []) = some k := by
  rcases formatRange_data start stop with ⟨v, hv⟩ | ⟨v, w, hvw⟩
  · rw [hv, pySplitCh_of_not_mem (by
      intro hm
      rcases List.mem_cons.mp hm with h1 | h2
      · exact absurd h1.symm (by decide)
      · exact (natToDigits_mem _ h2).2.2.2 rfl)]
    exact ⟨v, pyInt_plus_digits v⟩
  · rw [hvw, show ('+' :: (natToDigits v ++ ',' :: natToDigits w)) =
      ('+' :: natToDigits v) ++ ',' :: natToDigits w from by simp]
    rw [pySplitCh_append (by
      intro hm
      rcases List.mem_cons.mp hm with h1 | h2
      · exact absurd h1.symm (by decide)
      · exact (natToDigits_mem _ h2).2.2.2 rfl)]
    exact ⟨v, pyInt_plus_digits v⟩

theorem parse_built_header (s1 s2 t1 t2 : Nat) :
    ∃ k, parse_line_number
      ("@@ -" ++ formatRangeUnified s1 s2 ++ " +" ++ formatRangeUnified t1 t2 ++ " @@") =
      Except.ok k := by
  set r1 := (formatRangeUnified s1 s2).data with hr1
  set r2 := (formatRangeUnified t1 t2).data with hr2
  have hdata : ("@@ -" ++ formatRangeUnified s1 s2 ++ " +" ++
      formatRangeUnified t1 t2 ++ " @@").data =
      ['@', '@'] ++ ' ' :: (('-' :: r1) ++ ' ' :: (('+' :: r2) ++ ' ' :: ['@', '@'])) := by
    rw [String.data_append, String.data_append, String.data_append, String.data_append]
    simp [hr1, hr2]
  have hsplit : pySplitCh ' ' (("@@ -" ++ formatRangeUnified s1 s2 ++ " +" ++
      formatRangeUnified t1 t2 ++ " @@").data) =
      [['@', '@'], '-' :: r1, '+' :: r2, ['@', '@']] := by
    rw [hdata]
    rw [pySplitCh_append (by decide)]
    rw [pySplitCh_append (by
      intro hm
      rcases List.mem_cons.mp hm with h1 | h2
      · exact absurd h1.symm (by decide)
      · exact no_space_of_range_data _ h2 rfl)]
    rw [pySplitCh_append (by
      intro hm
      rcases List.mem_cons.mp hm with h1 | h2
      · exact absurd h1.symm (by decide)
      · exact no_space_of_range_data _ h2 rfl)]
    rw [pySplitCh_of_not_mem (by decide)]
  have hat : pyStartsWith ("@@ -" ++ formatRangeUnified s1 s2 ++ " +" ++
      formatRangeUnified t1 t2 ++ " @@") "@@" = true := by
    refine (startsWith_atat_iff _).mpr
      ⟨' ' :: ('-' :: r1 ++ ' ' :: ('+' :: r2 ++ [' ', '@', '@'])), ?_⟩
    rw [hdata]
    rfl
  obtain ⟨k, hk⟩ := pyInt_range_head t1 t2
  refine ⟨k, ?_⟩
  rw [parse_line_number.eq_def]
  rw [if_neg (by simp [hat])]
  dsimp only
  rw [hsplit]
  simp only [List.length_cons, List.length_nil]
  rw [if_neg (by omega)]
  have hget : ([['@', '@'], '-' :: r1, '+' :: r2, ['@', '@']] :
      List (List Char)).getD 2 [] = '+' :: r2 := rfl
  rw [hget, hk]

theorem cons_data_not_header {line : String} {ch : Char} {t : List Char}
    (hd : line.data = ch :: t) (hch : ch ≠ '@') : pyStartsWith line "@@" = false := by
  by_contra hb
  have hb2 : pyStartsWith line "@@" = true := by
    revert hb; cases pyStartsWith line "@@" <;> simp
  obtain ⟨u, hu⟩ := (startsWith_atat_iff line).mp hb2
  rw [hd] at hu
  exact hch (List.head_eq_of_cons_eq hu)

theorem opcodeLines_not_header (a b : List String) (c : Opcode) :
    ∀ line ∈ opcodeLines a b c, pyStartsWith line "@@" = false := by
  intro line hline
  unfold opcodeLines at hline
  by_cases he : c.tag = "equal"
  · rw [if_pos he] at hline
    obtain ⟨l, -, hl⟩ := List.mem_map.mp hline
    exact cons_data_not_header (by rw [← hl, String.data_append]; rfl) (by decide)
  · rw [if_neg he] at hline
    rcases List.mem_append.mp hline with h1 | h2
    · by_cases hd : c.tag = "replace" ∨ c.tag = "delete"
      · rw [if_pos hd] at h1
        obtain ⟨l, -, hl⟩ := List.mem_map.mp h1
        exact cons_data_not_header (by rw [← hl, String.data_append]; rfl) (by decide)
      · rw [if_neg hd] at h1
        exact absurd h1 (by simp)
    · by_cases hi : c.tag = "replace" ∨ c.tag = "insert"
      · rw [if_pos hi] at h2
        obtain ⟨l, -, hl⟩ := List.mem_map.mp h2
        exact cons_data_not_header (by rw [← hl, String.data_append]; rfl) (by decide)
      · rw [if_neg hi] at h2
        exact absurd h2 (by simp)

theorem groupHeader_parse (g : List Opcode) (hat : pyStartsWith (groupHeader g) "@@" = true) :
    ∃ k, parse_line_number (groupHeader g) = Except.ok k := by
  cases g with
  | nil => exact absurd hat (by decide)
  | cons c cs =>
    unfold groupHeader
    unfold groupHeader at hat
    cases hL : (c :: cs).getLast? with
    | none => exact absurd hL (by simp)
    | some l =>
      simp only [List.head?_cons] at hat ⊢
      exact parse_built_header c.i1 l.i2 c.j1 l.j2

theorem unifiedDiff_header_wf (a b : List String) :
    ∀ line ∈ unifiedDiff a b, pyStartsWith line "@@" = true →
      ∃ k, parse_line_number line = Except.ok k := by
  intro line hmem hat
  unfold unifiedDiff at hmem
  cases hg : getGroupedOpcodes a b 0 with
  | nil => rw [hg] at hmem; exact absurd hmem (by simp)
  | cons g0 gs0 =>
    rw [hg] at hmem
    have hmem2 : line ∈ (["--- ", "+++ "] : List String) ++
        ((g0 :: gs0).map
          (fun g => groupHeader g :: (g.map (opcodeLines a b)).flatten)).flatten := hmem
    rcases List.mem_append.mp hmem2 with hfix | hrest
    · fin_cases hfix <;> exact absurd hat (by decide)
    · obtain ⟨bl, hblmem, hline⟩ := List.mem_flatten.mp hrest
      obtain ⟨g, hgmem, hbl⟩ := List.mem_map.mp hblmem
      rw [← hbl] at hline
      rcases List.mem_cons.mp hline with hh | hb
      · rw [hh]
        rw [hh] at hat
        exact groupHeader_parse g hat
      · obtain ⟨ls, hlsmem, hlb⟩ := List.mem_flatten.mp hb
        obtain ⟨c, -, hc⟩ := List.mem_map.mp hlsmem
        rw [← hc] at hlb
        exact absurd hat (by simp [opcodeLines_not_header a b c line hlb])

theorem collectStep_ok (f : String) (st : Int × List String) (line : String)
    (h : pyStartsWith line "@@" = true → ∃ k, parse_line_number line = Except.ok k) :
    ∃ st2, collectStep f (Except.ok st) line = Except.ok st2 := by
  obtain ⟨n, errs⟩ := st
  by_cases hat : pyStartsWith line "@@" = true
  · obtain ⟨k, hk⟩ := h hat
    exact ⟨(k, errs), collectStep_header f n k errs line hat hk⟩
  · have hat2 : pyStartsWith line "@@" = false := by
      revert hat; cases pyStartsWith line "@@" <;> simp
    unfold collectStep
    rw [hat2]
    simp only [Bool.false_eq_true, if_false]
    split
    · exact ⟨_, rfl⟩
    · exact ⟨_, rfl⟩

theorem collectFold_ok (f : String) (lines : List String)
    (hwf : ∀ l ∈ lines, pyStartsWith l "@@" = true → ∃ k, parse_line_number l = Except.ok k) :
    ∀ st : Int × List String,
      ∃ st2, lines.foldl (collectStep f) (Except.ok st) = Except.ok st2 := by
  induction lines with
  | nil => exact fun st => ⟨st, rfl⟩
  | cons l rest ih =>
    intro st
    obtain ⟨st1, h1⟩ := collectStep_ok f st l (hwf l (by simp))
    rw [List.foldl_cons, h1]
    exact ih (fun x hx => hwf x (by simp [hx])) st1

/-- C10: collect_errors is total and never propagates the malformed-header
error: for all inputs every line of the generated diff that begins with the
hunk marker parses successfully, so the fold always ends in the ok state. -/
theorem c10_collect_errors_total_no_error (f data_a data_b : String) :
    ∃ es, collect_errors f data_a data_b = Except.ok es := by
  unfold collect_errors
  obtain ⟨st2, h⟩ := collectFold_ok f _
    (unifiedDiff_header_wf (pySplitlines data_b) (pySplitlines data_a)) (1, [])
  rw [h]
  exact ⟨st2.2, rfl⟩

/-! ## Helper lemmas for the empty diff of identical inputs

The scan of find_longest_match run on two copies of the same list only ever
records diagonal best matches, and the extension loops then grow any diagonal
match to the full range; the single full-length matching block then produces
one equal opcode, which get_grouped_opcodes discards, leaving an empty diff. -/

theorem mem_pyB2j {b : List String} {e : String} {j : Nat} (h : j ∈ pyB2j b e) :
    j < b.length ∧ b.getD j "" = e := by
  unfold pyB2j at h
  by_cases hpop : 200 ≤ b.length ∧ b.length / 100 + 1 < (listPositions b e).length
  · rw [if_pos hpop] at h
    exact absurd h (List.not_mem_nil j)
  · rw [if_neg hpop] at h
    unfold listPositions at h
    obtain ⟨h1, h2⟩ := List.mem_filter.mp h
    exact ⟨List.mem_range.mp h1, by simpa using h2⟩

theorem self_mem_pyB2j {b : List String} {i : Nat} (hi : i < b.length) :
    pyB2j b (b.getD i "") = [] ∨ i ∈ pyB2j b (b.getD i "") := by
  unfold pyB2j
  by_cases hpop : 200 ≤ b.length ∧
      b.length / 100 + 1 < (listPositions b (b.getD i "")).length
  · exact Or.inl (by rw [if_pos hpop])
  · refine Or.inr ?_
    rw [if_neg hpop]
    unfold listPositions
    exact List.mem_filter.mpr ⟨List.mem_range.mpr hi, by simp⟩

theorem pyB2j_sorted (b : List String) (e : String) : (pyB2j b e).Pairwise (· < ·) := by
  unfold pyB2j
  by_cases hpop : 200 ≤ b.length ∧ b.length / 100 + 1 < (listPositions b e).length
  · rw [if_pos hpop]
    exact List.Pairwise.nil
  · rw [if_neg hpop]
    exact List.Pairwise.filter _ (List.pairwise_lt_range b.length)

theorem diagChain_zero_of_not_mem {a : List String} {i j : Nat}
    (h : j ∉ pyB2j a (a.getD i "")) : diagChain a i j = 0 := by
  cases i with
  | zero => rw [diagChain, if_neg h]
  | succ i2 => rw [diagChain, if_neg h]

theorem diagChain_of_mem {a : List String} {i j : Nat}
    (h : j ∈ pyB2j a (a.getD i "")) :
    diagChain a i j = (if j = 0 then 0 else vrow a i (j - 1)) + 1 := by
  cases i with
  | zero =>
    rw [diagChain, if_pos h]
    cases hj : (j = 0 : Bool) -- placeholder
    all_goals simp [vrow]
  | succ i2 => rw [diagChain, if_pos h]; rfl

theorem diagChain_le (a : List String) : ∀ i j, diagChain a i j ≤ i + 1 := by
  intro i
  induction i with
  | zero =>
    intro j
    rw [diagChain]
    split <;> omega
  | succ i2 ih =>
    intro j
    rw [diagChain]
    split
    · split
      · omega
      · have := ih (j - 1)
        omega
    · omega

theorem diagChain_diag_max (a : List String) :
    ∀ i, i < a.length → ∀ j, diagChain a i j ≤ diagChain a i i := by
  intro i
  induction i with
  | zero =>
    intro h0 j
    by_cases hj : j ∈ pyB2j a (a.getD 0 "")
    · have hne : pyB2j a (a.getD 0 "") ≠ [] := by
        intro he
        rw [he] at hj
        exact List.not_mem_nil j hj
      have h0m : 0 ∈ pyB2j a (a.getD 0 "") := (self_mem_pyB2j h0).resolve_left hne
      rw [diagChain, if_pos hj, diagChain, if_pos h0m]
    · rw [diagChain_zero_of_not_mem hj]
      omega
  | succ i2 ih =>
    intro hs j
    by_cases hj : j ∈ pyB2j a (a.getD (i2 + 1) "")
    · have hne : pyB2j a (a.getD (i2 + 1) "") ≠ [] := by
        intro he
        rw [he] at hj
        exact List.not_mem_nil j hj
      have hsm : i2 + 1 ∈ pyB2j a (a.getD (i2 + 1) "") :=
        (self_mem_pyB2j hs).resolve_left hne
      rw [diagChain, if_pos hj, diagChain, if_pos hsm]
      simp only [Nat.succ_ne_zero, if_false, Nat.succ_sub_one]
      split
      · omega
      · have := ih (by omega) (j - 1)
        omega
    · rw [diagChain_zero_of_not_mem hj]
      omega

theorem pyB2j_mem_iff {a : List String} {i j : Nat} (hi : i < a.length) (hj : j < a.length) :
    j ∈ pyB2j a (a.getD i "") ↔ i ∈ pyB2j a (a.getD j "") := by
  constructor
  · intro h
    have heq : a.getD j "" = a.getD i "" := (mem_pyB2j h).2
    have hne : pyB2j a (a.getD i "") ≠ [] := by
      intro he
      rw [he] at h
      exact List.not_mem_nil j h
    have := (self_mem_pyB2j hi).resolve_left hne
    rw [heq]
    exact this
  · intro h
    have heq : a.getD i "" = a.getD j "" := (mem_pyB2j h).2
    have hne : pyB2j a (a.getD j "") ≠ [] := by
      intro he
      rw [he] at h
      exact List.not_mem_nil i h
    have := (self_mem_pyB2j hj).resolve_left hne
    rw [heq]
    exact this

theorem diagChain_symm (a : List String) :
    ∀ m i j, i + j = m → i < a.length → j < a.length →
      diagChain a i j = diagChain a j i := by
  intro m
  induction m using Nat.strong_induction_on with
  | _ m ih =>
    intro i j hm hi hj
    by_cases hmem : j ∈ pyB2j a (a.getD i "")
    · have hmem2 : i ∈ pyB2j a (a.getD j "") := (pyB2j_mem_iff hi hj).mp hmem
      cases i with
      | zero =>
        cases j with
        | zero => rfl
        | succ j2 =>
          rw [diagChain_of_mem hmem, diagChain_of_mem hmem2]
          simp [vrow]
      | succ i2 =>
        cases j with
        | zero =>
          rw [diagChain_of_mem hmem, diagChain_of_mem hmem2]
          simp [vrow]
        | succ j2 =>
          rw [diagChain_of_mem hmem, diagChain_of_mem hmem2]
          simp only [Nat.succ_ne_zero, if_false, Nat.succ_sub_one, vrow]
          rw [ih (i2 + j2) (by omega) i2 j2 rfl (by omega) (by omega)]
    · have hmem2 : i ∉ pyB2j a (a.getD j "") := fun hc => hmem ((pyB2j_mem_iff hj hi).mp hc)
      rw [diagChain_zero_of_not_mem hmem, diagChain_zero_of_not_mem hmem2]

theorem flmInner_dict {bhi i : Nat} :
    ∀ (js : List Nat) (old acc : Nat → Nat) (best : Nat × Nat × Nat),
      (∀ j ∈ js, j < bhi) →
      ∀ x, (flmInner 0 bhi i js old acc best).1 x =
        if x ∈ js then (if x = 0 then 0 else old (x - 1)) + 1 else acc x := by
  intro js
  induction js with
  | nil =>
    intro old acc best h x
    simp [flmInner]
  | cons j js ih =>
    intro old acc best h x
    rw [flmInner]
    rw [if_neg (by omega), if_neg (by have := h j (by simp); omega)]
    dsimp only
    rw [ih old _ _ (fun y hy => h y (List.mem_cons_of_mem j hy))]
    by_cases hx : x ∈ js
    · rw [if_pos hx, if_pos (List.mem_cons_of_mem j hx)]
    · by_cases hxj : x = j
      · subst hxj
        rw [if_neg hx, if_pos (List.mem_cons_self x js)]
        simp
      · rw [if_neg hx, if_neg (fun hc => ((List.mem_cons.mp hc).elim hxj hx))]
        simp [hxj]

theorem flmInner_best_diag (a : List String) (i : Nat) (hi : i < a.length) :
    ∀ (js : List Nat) (old acc : Nat → Nat) (d bs : Nat),
      js.Pairwise (· < ·) →
      (∀ j ∈ js, j ∈ pyB2j a (a.getD i "")) →
      (∀ j ∈ js, (if j = 0 then 0 else old (j - 1)) + 1 = diagChain a i j) →
      (∀ i2, i2 < i → diagChain a i2 i2 ≤ bs) →
      d + bs ≤ a.length →
      (i ∈ js ∨ diagChain a i i ≤ bs) →
      ∃ d2 bs2, (flmInner 0 a.length i js old acc (d, d, bs)).2 = (d2, d2, bs2) ∧
        bs ≤ bs2 ∧ d2 + bs2 ≤ a.length ∧ diagChain a i i ≤ bs2 := by
  intro js
  induction js with
  | nil =>
    intro old acc d bs _ _ _ _ hsum hphase
    refine ⟨d, bs, rfl, le_refl bs, hsum, ?_⟩
    rcases hphase with h | h
    · exact absurd h (List.not_mem_nil i)
    · exact h
  | cons j js ih =>
    intro old acc d bs hsort hmem hchain hhist hsum hphase
    have hjn : j < a.length := (mem_pyB2j (hmem j (by simp))).1
    rw [flmInner]
    rw [if_neg (by omega), if_neg (by omega)]
    dsimp only
    have hk : (if j = 0 then 0 else old (j - 1)) + 1 = diagChain a i j :=
      hchain j (by simp)
    rcases Nat.lt_trichotomy j i with hji | hji | hji
    · have hkle : (if j = 0 then 0 else old (j - 1)) + 1 ≤ bs := by
        rw [hk, diagChain_symm a (i + j) i j rfl hi hjn]
        calc diagChain a j i ≤ diagChain a j j := diagChain_diag_max a j hjn i
          _ ≤ bs := hhist j hji
      rw [if_neg (Nat.not_lt.mpr hkle)]
      refine ih old _ d bs hsort.of_cons (fun y hy => hmem y (List.mem_cons_of_mem j hy))
        (fun y hy => hchain y (List.mem_cons_of_mem j hy)) hhist hsum ?_
      rcases hphase with h | h
      · rcases List.mem_cons.mp h with h1 | h2
        · omega
        · exact Or.inl h2
      · exact Or.inr h
    · subst hji
      have hkval : (if j = 0 then 0 else old (j - 1)) + 1 = diagChain a j j := hk
      by_cases hbs : bs < (if j = 0 then 0 else old (j - 1)) + 1
      · rw [if_pos hbs]
        have hkle : diagChain a j j ≤ j + 1 := diagChain_le a j j
        obtain ⟨d2, bs2, heq, hle, hs2, hdg⟩ := ih old _
          (j + 1 - ((if j = 0 then 0 else old (j - 1)) + 1))
          ((if j = 0 then 0 else old (j - 1)) + 1)
          hsort.of_cons (fun y hy => hmem y (List.mem_cons_of_mem j hy))
          (fun y hy => hchain y (List.mem_cons_of_mem j hy))
          (fun i2 h2 => le_trans (hhist i2 h2) (le_of_lt hbs))
          (by omega)
          (Or.inr (by omega))
        exact ⟨d2, bs2, heq, le_trans (le_of_lt hbs) hle, hs2, hdg⟩
      · rw [if_neg hbs]
        refine ih old _ d bs hsort.of_cons (fun y hy => hmem y (List.mem_cons_of_mem j hy))
          (fun y hy => hchain y (List.mem_cons_of_mem j hy)) hhist hsum (Or.inr (by omega))
    · have hiphase : diagChain a i i ≤ bs := by
        rcases hphase with h | h
        · rcases List.mem_cons.mp h with h1 | h2
          · omega
          · have := (List.pairwise_cons.mp hsort).1 i h2
            omega
        · exact h
      have hkle : (if j = 0 then 0 else old (j - 1)) + 1 ≤ bs := by
        rw [hk]
        calc diagChain a i j ≤ diagChain a i i := diagChain_diag_max a i hi j
          _ ≤ bs := hiphase
      rw [if_neg (Nat.not_lt.mpr hkle)]
      exact ih old _ d bs hsort.of_cons (fun y hy => hmem y (List.mem_cons_of_mem j hy))
        (fun y hy => hchain y (List.mem_cons_of_mem j hy)) hhist hsum (Or.inr hiphase)

theorem flmScan_inv (a : List String) :
    ∀ m, m ≤ a.length →
      (∀ x, ((List.range' 0 m).foldl
          (fun st i => flmInner 0 a.length i (pyB2j a (a.getD i "")) st.1 (fun _ => 0) st.2)
          ((fun _ => 0), (0, 0, 0))).1 x = vrow a m x) ∧
      ∃ d bs, ((List.range' 0 m).foldl
          (fun st i => flmInner 0 a.length i (pyB2j a (a.getD i "")) st.1 (fun _ => 0) st.2)
          ((fun _ => 0), (0, 0, 0))).2 = (d, d, bs) ∧
        d + bs ≤ a.length ∧ ∀ i2, i2 < m → diagChain a i2 i2 ≤ bs := by
  intro m
  induction m with
  | zero =>
    intro _
    constructor
    · intro x
      rfl
    · exact ⟨0, 0, rfl, by omega, fun i2 h2 => absurd h2 (by omega)⟩
  | succ m ih =>
    intro hm1
    obtain ⟨ihdict, d, bs, ihbest, ihsum, ihhist⟩ := ih (by omega)
    have hm : m < a.length := by omega
    have hrange : List.range' 0 (m + 1) = List.range' 0 m ++ [m] := by
      simpa using
        (List.range'_concat 0 m :
          List.range' 0 (m + 1) = List.range' 0 m ++ [0 + 1 * m])
    rw [hrange, List.foldl_append, List.foldl_cons, List.foldl_nil]
    set st := (List.range' 0 m).foldl
      (fun st i => flmInner 0 a.length i (pyB2j a (a.getD i "")) st.1 (fun _ => 0) st.2)
      ((fun _ => 0), (0, 0, 0)) with hst
    have hmemlt : ∀ j ∈ pyB2j a (a.getD m ""), j < a.length :=
      fun j hj => (mem_pyB2j hj).1
    have hchain : ∀ j ∈ pyB2j a (a.getD m ""),
        (if j = 0 then 0 else st.1 (j - 1)) + 1 = diagChain a m j := by
      intro j hj
      rw [diagChain_of_mem hj]
      by_cases hj0 : j = 0
      · simp [hj0]
      · simp only [hj0, if_false]
        rw [ihdict (j - 1)]
    constructor
    · intro x
      show (flmInner 0 a.length m (pyB2j a (a.getD m "")) st.1 (fun _ => 0) st.2).1 x =
        vrow a (m + 1) x
      rw [flmInner_dict (pyB2j a (a.getD m "")) st.1 (fun _ => 0) st.2 hmemlt x]
      by_cases hx : x ∈ pyB2j a (a.getD m "")
      · rw [if_pos hx]
        rw [show vrow a (m + 1) x = diagChain a m x from rfl, diagChain_of_mem hx]
        by_cases hx0 : x = 0
        · simp [hx0]
        · simp only [hx0, if_false]
          rw [ihdict (x - 1)]
      · rw [if_neg hx]
        rw [show vrow a (m + 1) x = diagChain a m x from rfl,
          diagChain_zero_of_not_mem hx]
    · show ∃ d2 bs2,
        (flmInner 0 a.length m (pyB2j a (a.getD m "")) st.1 (fun _ => 0) st.2).2 =
          (d2, d2, bs2) ∧ d2 + bs2 ≤ a.length ∧ ∀ i2, i2 < m + 1 → diagChain a i2 i2 ≤ bs2
    
      by_cases hocc : pyB2j a (a.getD m "") = []
      · rw [hocc, ihbest]
        refine ⟨d, bs, rfl, ihsum, ?_⟩
        intro i2 h2
        rcases Nat.lt_or_ge i2 m with h3 | h3
        · exact ihhist i2 h3
        · have : i2 = m := by omega
          subst this
          rw [diagChain_zero_of_not_mem (by rw [hocc]; exact List.not_mem_nil i2)]
          omega
      · have hmm : m ∈ pyB2j a (a.getD m "") := (self_mem_pyB2j hm).resolve_left hocc
        rw [ihbest]
        obtain ⟨d2, bs2, heq, hle, hs2, hdg⟩ :=
          flmInner_best_diag a m hm (pyB2j a (a.getD m "")) st.1 (fun _ => 0) d bs
            (pyB2j_sorted a _) (fun _ h => h) hchain ihhist ihsum (Or.inl hmm)
        refine ⟨d2, bs2, heq, hs2, ?_⟩
        intro i2 h2
        rcases Nat.lt_or_ge i2 m with h3 | h3
        · exact le_trans (ihhist i2 h3) hle
        · have : i2 = m := by omega
          subst this
          exact hdg

theorem extBackA_diag (a : List String) :
    ∀ (d bs fuel : Nat), d ≤ fuel →
      extBackA a a 0 0 (fun _ => false) fuel d d bs = (0, 0, bs + d) := by
  intro d
  induction d with
  | zero =>
    intro bs fuel _
    cases fuel with
    | zero => rfl
    | succ f =>
      rw [extBackA, if_neg (by omega)]
      rfl
  | succ d2 ih =>
    intro bs fuel hf
    cases fuel with
    | zero => omega
    | succ f =>
      rw [extBackA, if_pos ⟨by omega, by omega, rfl, rfl⟩]
      simp only [Nat.add_sub_cancel]
      rw [ih (bs + 1) f (by omega)]
      have harith : bs + 1 + d2 = bs + (d2 + 1) := by omega
      rw [harith]

theorem extFwdA_diag (a : List String) :
    ∀ (fuel m : Nat), m ≤ a.length → a.length ≤ m + fuel →
      extFwdA a a a.length a.length (fun _ => false) fuel 0 0 m = a.length := by
  intro fuel
  induction fuel with
  | zero =>
    intro m h1 h2
    have : m = a.length := by omega
    rw [extFwdA, this]
  | succ f ih =>
    intro m h1 h2
    by_cases hm : m < a.length
    · rw [extFwdA, if_pos ⟨by omega, by omega, rfl, rfl⟩]
      exact ih (m + 1) (by omega) (by omega)
    · have : m = a.length := by omega
      rw [extFwdA, if_neg (by omega), this]

theorem extBackJ_noop (a b : List String) (fuel d1 d2 bs : Nat) :
    extBackJ a b 0 0 (fun _ => false) fuel d1 d2 bs = (d1, d2, bs) := by
  cases fuel with
  | zero => rfl
  | succ f =>
    rw [extBackJ, if_neg (by simp)]

theorem extFwdJ_noop (a b : List String) (ahi bhi fuel d1 d2 bs : Nat) :
    extFwdJ a b ahi bhi (fun _ => false) fuel d1 d2 bs = bs := by
  cases fuel with
  | zero => rfl
  | succ f =>
    rw [extFwdJ, if_neg (by simp)]

theorem findLongestMatch_self (a : List String) :
    findLongestMatch a a (pyB2j a) (fun _ => false) 0 a.length 0 a.length =
      (0, 0, a.length) := by
  obtain ⟨-, d, bs, hbest, hsum, -⟩ := flmScan_inv a a.length (le_refl a.length)
  have hscan : (flmScan a (pyB2j a) 0 a.length 0 a.length).2 = (d, d, bs) := by
    unfold flmScan
    simpa using hbest
  unfold findLongestMatch
  rw [hscan]
  dsimp only
  rw [extBackA_diag a d bs d (le_refl d)]
  dsimp only
  rw [extFwdA_diag a a.length (bs + d) (by omega) (by omega)]
  rw [extBackJ_noop]
  rw [extFwdJ_noop]

theorem getMatchingBlocks_self (l : List String) (hn : l.length ≠ 0) :
    getMatchingBlocks l l = [(0, 0, l.length), (l.length, l.length, 0)] := by
  unfold getMatchingBlocks
  rw [matchingBlocksAux]
  rw [findLongestMatch_self]
  rw [if_neg hn, if_neg (by simp), if_neg (by simp)]
  simp only [List.nil_append, List.append_nil]
  rw [collapseBlocks, if_pos ⟨by omega, by omega⟩]
  rw [collapseBlocks, if_pos (by omega)]
  simp

theorem getOpcodes_self (l : List String) (hn : l.length ≠ 0) :
    getOpcodes l l = [⟨"equal", 0, l.length, 0, l.length⟩] := by
  unfold getOpcodes
  rw [getMatchingBlocks_self l hn]
  simp [opcodesLoop, hn]

theorem getGroupedOpcodes_self (l : List String) (hn : l.length ≠ 0) :
    getGroupedOpcodes l l 0 = [] := by
  unfold getGroupedOpcodes
  rw [getOpcodes_self l hn]
  simp [fixHead, fixLast, groupLoop]

theorem unifiedDiff_self (l : List String) : unifiedDiff l l = [] := by
  by_cases hn : l.length = 0
  · rw [List.length_eq_zero.mp hn]
    rfl
  · unfold unifiedDiff
    rw [getGroupedOpcodes_self l hn]

/-- C7: on identical old and new content the matcher returns the single
full-length diagonal matching block, the only opcode is an equal one, the
zero-context grouping discards it, the diff is empty and collect_errors
returns no diagnostics whatever the path and the text. -/
theorem c7_identical_texts_no_diagnostics (f t : String) :
    collect_errors f t t = Except.ok [] := by
  unfold collect_errors
  rw [unifiedDiff_self]
  rfl
